import Mathlib

/-!
Shallow embedding of the extraction-and-reconciliation engine of
`src/scraper.py` (agricultural mandi price scraper).

The embedding models, per crop:
* the MSAMB (Primary source) row loop: date-marker rows, 7-column data
  rows, substring matching against `LOCAL_MARKETS`, first-match-wins
  writes into the `local` map;
* the CommodityOnline (Secondary source) row loop: rows with at least 9
  cells, price extraction, the three CASEs (no-MSAMB crops, Maharashtra
  fallback, outstate collection) and the `processed_markets` dedup set;
* the numeric cleaning helpers `clean_price` and `extract_co_price`
  (the latter is fallible: a comma-only regex match makes Python's
  `int('')` raise, modelled as `Except.error`).

Python dicts are modelled as association lists with Python's
assignment semantics (`dictInsert` overwrites in place or appends);
Python string operations (`strip`, `lower`, `replace`, `in`) are
modelled on `List Char`, with ASCII digits/whitespace/case, matching
every character class that actually occurs in the scraped cells.
-/

namespace Scraper

/-- Python `str.strip()` on a list of characters. -/
def strStripList (l : List Char) : List Char :=
  ((l.dropWhile Char.isWhitespace).reverse.dropWhile Char.isWhitespace).reverse

/-- Python `str.strip()`. -/
def strStrip (s : String) : String := ⟨strStripList s.data⟩

/-- Python `str.lower()` (ASCII letters; Devanagari has no case). -/
def strLower (s : String) : String := ⟨s.data.map Char.toLower⟩

/-- Contiguous-substring test on character lists (Python `needle in hay`). -/
def listContainsSub (hay needle : List Char) : Bool :=
  hay.tails.any (fun t => needle.isPrefixOf t)

/-- Python `needle in hay` for strings. -/
def strContains (hay needle : String) : Bool := listContainsSub hay.data needle.data

/-- Python `s.replace(',', '')`. -/
def removeCommas (s : String) : String := ⟨s.data.filter (fun c => !(c == ','))⟩

/-- Python `s.replace(" ", "").replace("-", "")`. -/
def removeSpacesHyphens (s : String) : String :=
  ⟨s.data.filter (fun c => !(c == ' ' || c == '-'))⟩

/-- Decimal value of a list of digit characters. -/
def digitsVal (l : List Char) : Nat :=
  l.foldl (fun a c => a * 10 + (c.toNat - 48)) 0

/-- Tail of a valid Python integer-literal digit body: digits, with single
underscores allowed only between digits. -/
def pyDigitsRest : List Char → Bool
  | [] => true
  | ['_'] => false
  | '_' :: c :: rest => c.isDigit && pyDigitsRest rest
  | c :: rest => c.isDigit && pyDigitsRest rest

/-- A nonempty digit body as accepted by Python `int` (after sign). -/
def pyDigitsOk : List Char → Bool
  | [] => false
  | c :: rest => c.isDigit && pyDigitsRest rest

/-- Value of an accepted digit body (underscores dropped). -/
def pyIntOfDigits (l : List Char) : Int :=
  Int.ofNat (digitsVal (l.filter (fun c => !(c == '_'))))

/-- Python `int(s)` on a decimal string: strip whitespace, optional sign,
digit body. `none` models a raised `ValueError`. -/
def pyInt (s : String) : Option Int :=
  if (strStripList s.data).head? = some '-' then
    if pyDigitsOk (strStripList s.data).tail then
      some (-(pyIntOfDigits (strStripList s.data).tail))
    else none
  else if (strStripList s.data).head? = some '+' then
    if pyDigitsOk (strStripList s.data).tail then
      some (pyIntOfDigits (strStripList s.data).tail)
    else none
  else if pyDigitsOk (strStripList s.data) then
    some (pyIntOfDigits (strStripList s.data))
  else none

/-- `clean_price` from `src/scraper.py`: `int(text.replace(',', '').strip())`
with any `ValueError`/`AttributeError` resolved to 0. -/
def clean_price (text : String) : Int :=
  match pyInt (strStrip (removeCommas text)) with
  | some n => n
  | none => 0

/-- First maximal run of digit-or-comma characters
(Python `re.search(r'([\d,]+)', text)`). -/
def firstDigitCommaRun : List Char → Option (List Char)
  | [] => none
  | c :: rest =>
      if c.isDigit || c == ',' then
        some (c :: rest.takeWhile (fun x => x.isDigit || x == ','))
      else firstDigitCommaRun rest

/-- `extract_co_price` from `src/scraper.py`: find the first digit-or-comma
run, drop commas, `int` the remainder. No run at all returns 0; a run made
only of commas makes `int('')` raise, modelled as `Except.error ()`. -/
def extract_co_price (text : String) : Except Unit Int :=
  match firstDigitCommaRun text.data with
  | none => Except.ok 0
  | some run =>
      match pyInt ⟨run.filter (fun c => !(c == ','))⟩ with
      | some n => Except.ok n
      | none => Except.error ()

/-- One entry of the `CROPS` configuration list. -/
structure Crop where
  id : String
  name : String
  marathi : String
  msamb_val : String
  commodityonline_id : String
deriving DecidableEq

/-- The `CROPS` configuration list from `src/scraper.py`. -/
def CROPS : List Crop := [
  ⟨"onion", "Onion", "कांदा", "08035", "onion"⟩,
  ⟨"soyabean", "Soybean", "सोयाबीन", "04017", "soyabean"⟩,
  ⟨"cotton", "Cotton", "कापूस", "01001", "cotton"⟩,
  ⟨"maize", "Maize", "मका", "02015", "maize"⟩,
  ⟨"wheat", "Wheat", "गहू", "02009", "wheat"⟩,
  ⟨"arhar-turred-gram-whole", "Tur", "तूर", "03020", "arhar-turred-gram-whole"⟩,
  ⟨"bengal-gram-gram-whole", "Harbara", "हरभरा", "03006", "bengal-gram-gram-whole"⟩,
  ⟨"tomato", "Tomato", "टोमॅटो", "08071", "tomato"⟩,
  ⟨"pomegranate", "Pomegranate", "डाळिंब", "07007", "pomegranate"⟩,
  ⟨"garlic", "Garlic", "लसूण", "08045", "garlic"⟩,
  ⟨"marigold-calcutta", "Marigold", "झेंडू", "16009", "marigold-calcutta"⟩,
  ⟨"rose-local", "Rose", "गुलाब", "16003", "rose-local"⟩,
  ⟨"green-chilli", "Green Chilli", "हिरवी मिरची", "10013", "green-chilli"⟩,
  ⟨"silk-cocoonbh-double-hybr", "Cocoon", "रेशीम कोष", "", "silk-cocoonbh-double-hybr"⟩]

/-- The ordered canonical Maharashtra market list (`LOCAL_MARKETS`). -/
def LOCAL_MARKETS : List String := [
  "अहिल्यानगर", "राहता", "राहुरी", "आळेफाटा", "संगमनेर", "लासलगाव",
  "पुणे", "सोलापूर", "नागपूर", "मुंबई", "लातूर", "अकोला", "अमरावती",
  "वाशिम", "हिंगणघाट", "यवतमाळ", "जळगाव", "जालना", "पिंपळगाव",
  "नारायणगाव", "सांगोला", "पंढरपूर", "सटाणा", "बारामती", "तळेगाव", "सातारा", "कल्याण"]

/-- The accepted spellings of the in-scope region (`MAHARASHTRA_VARIATIONS`). -/
def MAHARASHTRA_VARIATIONS : List String := ["maharashtra", "maharastra", "mh"]

/-- CommodityOnline-English to MSAMB-Marathi market alias table
(`market_name_map`), in insertion (iteration) order. -/
def market_name_map : List (String × String) := [
  ("ahilyanagar", "अहिल्यानगर"),
  ("nashik", "नाशिक"),
  ("sangamner", "संगमनेर"),
  ("lasalgaon", "लासलगाव"),
  ("pune", "पुणे"),
  ("solapur", "सोलापूर"),
  ("nagpur", "नागपूर"),
  ("mumbai", "मुंबई"),
  ("latur", "लातूर"),
  ("akola", "अकोला"),
  ("amravati", "अमरावती"),
  ("washim", "वाशिम"),
  ("hinganghat", "हिंगणघाट"),
  ("yavatmal", "यवतमाळ"),
  ("jalgaon", "जळगाव"),
  ("jalna", "जालना"),
  ("pimpalgaon", "पिंपळगाव"),
  ("narayangaon", "नारायणगाव"),
  ("sangola", "सांगोला"),
  ("pandharpur", "पंढरपूर"),
  ("satana", "सटाणा"),
  ("baramati", "बारामती"),
  ("talegaon", "तळेगाव"),
  ("satara", "सातारा"),
  ("kalyan", "कल्याण"),
  ("rahata", "राहता"),
  ("rahuri", "राहुरी"),
  ("alephata", "आळेफाटा")]

/-- One market's quote, as stored in a crop's `local` or `outstate` map.
MSAMB rows fill every field; CommodityOnline rows fill only
`modal_price` and `variety` (the other fields stay `none`, i.e. the
JSON keys are absent). -/
structure PriceRecord where
  modal_price : Int
  min_price : Option Int
  max_price : Option Int
  arrival : Option Int
  variety : String
  trade_date : Option String
deriving DecidableEq

/-- A Python dict of market name to record, as an association list in
insertion order. -/
abbrev PriceMap := List (String × PriceRecord)

/-- Python dict assignment `d[k] = v`: overwrite in place, else append. -/
def dictInsert : PriceMap → String → PriceRecord → PriceMap
  | [], k, v => [(k, v)]
  | p :: rest, k, v => if p.1 == k then (k, v) :: rest else p :: dictInsert rest k v

/-- Python dict lookup `d[k]` (as an option). -/
def dictGet (m : PriceMap) (k : String) : Option PriceRecord :=
  (m.find? (fun p => p.1 == k)).map (fun p => p.2)

/-- Python `k in d`. -/
def dictMem (m : PriceMap) (k : String) : Bool := m.any (fun p => p.1 == k)

/-- One crop's `local` and `outstate` maps. -/
structure CropState where
  local_ : PriceMap
  outstate : PriceMap
deriving DecidableEq

/-- One `<td>` cell of an MSAMB table row: its stripped-able text and
whether it bears a `colspan` attribute. -/
structure MsambCell where
  text : String
  hasColspan : Bool
deriving DecidableEq

/-- Default cell used for out-of-range indexing (never reached under the
length guards, exactly as in the Python code). -/
def emptyCell : MsambCell := ⟨"", false⟩

/-- The MSAMB target-market loop: the first `LOCAL_MARKETS` entry that is
a substring of the raw market name, provided the modal price is positive
(`if target in market_name and avg_p > 0: ... break`). -/
def msambMatchTarget (market_name : String) (avg_p : Int) : Option String :=
  LOCAL_MARKETS.find? (fun target => strContains market_name target && decide (0 < avg_p))

/-- The record an MSAMB data row stores: columns are
`[Market, Variety, Grade, Arrival, Min, Max, Modal]`, and the active
trade date is attached. -/
def msambRecordOf (row : List MsambCell) (ctd : String) : PriceRecord :=
  ⟨clean_price (strStrip (row.getD 6 emptyCell).text),
   some (clean_price (strStrip (row.getD 4 emptyCell).text)),
   some (clean_price (strStrip (row.getD 5 emptyCell).text)),
   some (clean_price (strStrip (row.getD 3 emptyCell).text)),
   strStrip (row.getD 1 emptyCell).text,
   some ctd⟩

/-- One iteration of the MSAMB row loop. State: the active trade date
(`current_trade_date`) and the crop's maps. -/
def msambStep (st : String × CropState) (row : List MsambCell) : String × CropState :=
  if row.length == 1 && (row.getD 0 emptyCell).hasColspan then
    (strStrip (row.getD 0 emptyCell).text, st.2)
  else if row.length == 7 then
    match msambMatchTarget (strStrip (row.getD 0 emptyCell).text)
        (clean_price (strStrip (row.getD 6 emptyCell).text)) with
    | some target =>
        if dictMem st.2.local_ target then st
        else (st.1, { st.2 with
          local_ := dictInsert st.2.local_ target (msambRecordOf row st.1) })
    | none => st
  else st

/-- The MSAMB row loop from a given state. -/
def msambProcessRows (rows : List (List MsambCell)) (init : String × CropState) :
    String × CropState :=
  rows.foldl msambStep init

/-- The MSAMB part for one crop: trade date starts at `"N/A"`, maps empty. -/
def msambProcess (rows : List (List MsambCell)) : CropState :=
  (msambProcessRows rows ("N/A", ⟨[], []⟩)).2

/-- CommodityOnline per-crop processing state: the crop's maps, the
`missing_local_markets` list and the `processed_markets` set (as a list,
each name added at most once). -/
structure CoState where
  cs : CropState
  missing : List String
  processed : List String
deriving DecidableEq

/-- The record CommodityOnline writes: modal price and variety only. -/
def coRecord (price : Int) (variety : String) : PriceRecord :=
  ⟨price, none, none, none, variety, none⟩

/-- CASE 1 name translation: first alias whose English key is a substring
of the normalized market name; default is the raw (English) name. -/
def coMatchCase1 (market_normalized market_name : String) : String :=
  match market_name_map.find? (fun p => strContains market_normalized p.1) with
  | some p => p.2
  | none => market_name

/-- CASE 2 matching: first missing market that some alias (whose key is a
substring of the normalized name) maps to. -/
def coMatchCase2 (market_normalized : String) (missing : List String) : Option String :=
  missing.find? (fun m =>
    market_name_map.any (fun p => strContains market_normalized p.1 && p.2 == m))

/-- The CASE 3 region test: some `MAHARASHTRA_VARIATIONS` entry is a
substring of the lowercased state. -/
def isMaharashtraVariation (state_lower : String) : Bool :=
  MAHARASHTRA_VARIATIONS.any (fun v => strContains state_lower v)

/-- The three CASE branches of the CommodityOnline row loop, reached once
the row is a data row with a positive, not-yet-processed market. -/
def coBranch (hasMsamb : Bool) (st : CoState)
    (market_name variety state_lower market_normalized : String) (price : Int) : CoState :=
  if !hasMsamb then
    if strContains state_lower "maharashtra" then
      ⟨⟨dictInsert st.cs.local_ (coMatchCase1 market_normalized market_name)
          (coRecord price variety), st.cs.outstate⟩,
        st.missing, st.processed ++ [market_name]⟩
    else
      ⟨⟨st.cs.local_, dictInsert st.cs.outstate market_name (coRecord price variety)⟩,
        st.missing, st.processed ++ [market_name]⟩
  else if strContains state_lower "maharashtra" && !st.missing.isEmpty then
    match coMatchCase2 market_normalized st.missing with
    | some m =>
        ⟨⟨dictInsert st.cs.local_ m (coRecord price variety), st.cs.outstate⟩,
          st.missing.erase m, st.processed ++ [market_name]⟩
    | none => st
  else if isMaharashtraVariation state_lower then st
  else
    ⟨⟨st.cs.local_, dictInsert st.cs.outstate market_name (coRecord price variety)⟩,
      st.missing, st.processed ++ [market_name]⟩

/-- One iteration of the CommodityOnline row loop. `none` models the
`ValueError` raised by `extract_co_price` (caught by the per-crop
`except`, aborting the remaining rows of this crop). -/
def coStep (hasMsamb : Bool) (st : CoState) (row : List String) : Option CoState :=
  if row.length < 9 then some st else
  match extract_co_price (strStrip (row.getD 8 "")) with
  | Except.error _ => none
  | Except.ok price =>
    if price ≤ 0 || st.processed.contains (strStrip (row.getD 5 "")) then some st else
    some (coBranch hasMsamb st (strStrip (row.getD 5 "")) (strStrip (row.getD 2 ""))
      (strLower (strStrip (row.getD 3 "")))
      (removeSpacesHyphens (strLower (strStrip (row.getD 5 "")))) price)

/-- The CommodityOnline row loop; an exception keeps the state reached so
far and stops this crop's processing. -/
def coProcessRows (hasMsamb : Bool) : List (List String) → CoState → CoState
  | [], st => st
  | row :: rest, st =>
      match coStep hasMsamb st row with
      | some st2 => coProcessRows hasMsamb rest st2
      | none => st

/-- State at the start of CommodityOnline processing for a crop: MSAMB
result (empty maps for crops MSAMB does not track) plus the
`missing_local_markets` computation. -/
def cropCoInit (hasMsamb : Bool) (msambRows : List (List MsambCell)) : CoState :=
  if hasMsamb then
    let cs := msambProcess msambRows
    ⟨cs, LOCAL_MARKETS.filter (fun m => !(dictMem cs.local_ m)), []⟩
  else ⟨⟨[], []⟩, [], []⟩

/-- Full per-crop pipeline, returning the whole CommodityOnline state. -/
def cropRun (hasMsamb : Bool) (msambRows : List (List MsambCell))
    (coRows : List (List String)) : CoState :=
  coProcessRows hasMsamb coRows (cropCoInit hasMsamb msambRows)

/-- Full per-crop pipeline for a configured crop: the crop's final
`local` and `outstate` maps. -/
def cropProcess (crop : Crop) (msambRows : List (List MsambCell))
    (coRows : List (List String)) : CropState :=
  (cropRun (!(crop.msamb_val == "")) msambRows coRows).cs

/-- Invariant: every key of the `outstate` map has been recorded in
`processed_markets`. -/
abbrev OutInv (st : CoState) : Prop :=
  ∀ k, dictMem st.cs.outstate k = true → st.processed.contains k = true

/-- Invariant on `missing_local_markets`: for a crop without an MSAMB
selector the list is empty; its entries are never keys of `local`, and it
has no duplicates. -/
abbrev MissInv (hasMsamb : Bool) (st : CoState) : Prop :=
  (hasMsamb = false → st.missing = []) ∧
  (∀ m ∈ st.missing, dictMem st.cs.local_ m = false) ∧
  st.missing.Nodup

/-- Shape of every record CommodityOnline writes: only a positive modal
price and a variety. -/
abbrev CoShape (v : PriceRecord) : Prop :=
  v.min_price = none ∧ v.max_price = none ∧ v.arrival = none ∧
  v.trade_date = none ∧ 0 < v.modal_price

/-- All numeric fields of a record are nonnegative. -/
abbrev NonnegShape (v : PriceRecord) : Prop :=
  0 ≤ v.modal_price ∧ (∀ x, v.min_price = some x → 0 ≤ x) ∧
  (∀ x, v.max_price = some x → 0 ≤ x) ∧ (∀ x, v.arrival = some x → 0 ≤ x)

/-- The crop entries referenced by the concrete scenarios. -/
def onionCrop : Crop := ⟨"onion", "Onion", "कांदा", "08035", "onion"⟩

/-- The one crop without an MSAMB selector. -/
def cocoonCrop : Crop :=
  ⟨"silk-cocoonbh-double-hybr", "Cocoon", "रेशीम कोष", "", "silk-cocoonbh-double-hybr"⟩

/-- A Primary-source date-marker row. -/
def markerRow : List MsambCell := [⟨"Trade Date: 01-01-2024", true⟩]

/-- The 7-column Primary-source data row of the end-to-end scenario. -/
def puneDataRow : List MsambCell :=
  [⟨"पुणे- मंडई", false⟩, ⟨"Red", false⟩, ⟨"Quintal", false⟩, ⟨"120", false⟩,
   ⟨"1500", false⟩, ⟨"2000", false⟩, ⟨"1800", false⟩]

/-- A 7-column Primary-source data row with a signed arrival cell. -/
def negArrivalRow : List MsambCell :=
  [⟨"पुणे", false⟩, ⟨"X", false⟩, ⟨"Q", false⟩, ⟨"-5", false⟩,
   ⟨"1500", false⟩, ⟨"2000", false⟩, ⟨"1800", false⟩]

/-- Secondary-source rows (cells: commodity, arrival date, variety, state,
district, market, min, max, modal). -/
def puneCoRow1 : List String :=
  ["Onion", "d", "Red", "Maharashtra", "Pune", "Pune", "1", "2", "100"]

/-- A second Maharashtra row whose distinct raw name also normalizes to
a name containing the alias "pune". -/
def puneCoRow2 : List String :=
  ["Onion", "d", "Red", "Maharashtra", "Pune", "Pune City", "1", "2", "200"]

/-- A row whose state field uses the accepted alternative spelling. -/
def maharastraCoRow : List String :=
  ["Cocoon", "d", "Var", "Maharastra", "Dist", "Satara", "1", "2", "100"]

/-- A row whose state field is the accepted abbreviation. -/
def mhCoRow : List String :=
  ["Wheat", "d", "Var", "MH", "Dist", "Satara", "1", "2", "100"]

/-- The fallback-scenario row for the crop "wheat". -/
def sataraCoRow : List String :=
  ["Wheat", "d", "Sharbati", "Maharashtra", "Satara", "Satara", "2100", "2300", "2200"]

/-- An out-of-state row whose modal-price cell parses to 0. -/
def indoreZeroRow : List String :=
  ["Onion", "d", "Red", "Madhya Pradesh", "Indore", "Indore", "1", "2", "0"]

/-- The same out-of-state market with a positive price. -/
def indoreRow : List String :=
  ["Onion", "d", "Red", "Madhya Pradesh", "Indore", "Indore", "1", "2", "1,950"]

/-! Basic lemmas about the dictionary model. -/

theorem dictGet_insert_self (m : PriceMap) (k : String) (v : PriceRecord) :
    dictGet (dictInsert m k v) k = some v := by
  induction m with
  | nil => simp [dictInsert, dictGet]
  | cons p rest ih =>
      by_cases h : p.1 = k
      · simp [dictInsert, dictGet, h]
      · simp only [dictInsert, beq_iff_eq, if_neg h]
        simpa [dictGet, List.find?_cons, beq_iff_eq, h] using ih

theorem dictGet_insert_ne (m : PriceMap) (k : String) (v : PriceRecord)
    (k' : String) (h : k' ≠ k) :
    dictGet (dictInsert m k v) k' = dictGet m k' := by
  induction m with
  | nil => simp [dictInsert, dictGet, List.find?_cons, beq_iff_eq, Ne.symm h]
  | cons p rest ih =>
      by_cases hp : p.1 = k
      · simp only [dictInsert, beq_iff_eq, if_pos hp]
        simp [dictGet, List.find?_cons, beq_iff_eq, h, hp, Ne.symm h]
      · simp only [dictInsert, beq_iff_eq, if_neg hp]
        by_cases hpk : p.1 = k'
        · simp [dictGet, List.find?_cons, beq_iff_eq, hpk]
        · simpa [dictGet, List.find?_cons, beq_iff_eq, hpk] using ih

theorem dictGet_insert_cases (m : PriceMap) (k : String) (v : PriceRecord)
    (k' : String) (w : PriceRecord)
    (h : dictGet (dictInsert m k v) k' = some w) :
    (k' = k ∧ w = v) ∨ dictGet m k' = some w := by
  by_cases hk : k' = k
  · subst hk
    rw [dictGet_insert_self] at h
    exact Or.inl ⟨rfl, (Option.some.inj h).symm⟩
  · right
    rw [dictGet_insert_ne m k v k' hk] at h
    exact h

theorem dictMem_iff (m : PriceMap) (k : String) :
    dictMem m k = true ↔ ∃ v, dictGet m k = some v := by
  induction m with
  | nil => simp [dictMem, dictGet]
  | cons p rest ih =>
      by_cases h : p.1 = k
      · simp [dictMem, dictGet, List.find?_cons, beq_iff_eq, h]
      · simpa [dictMem, dictGet, List.find?_cons, beq_iff_eq, h] using ih

theorem dictMem_of_get {m : PriceMap} {k : String} {v : PriceRecord}
    (h : dictGet m k = some v) : dictMem m k = true :=
  (dictMem_iff m k).mpr ⟨v, h⟩

theorem dictMem_insert_cases {m : PriceMap} {k k' : String} {v : PriceRecord}
    (h : dictMem (dictInsert m k v) k' = true) :
    k' = k ∨ dictMem m k' = true := by
  rcases (dictMem_iff _ _).mp h with ⟨w, hw⟩
  rcases dictGet_insert_cases m k v k' w hw with ⟨hk, _⟩ | hold
  · exact Or.inl hk
  · exact Or.inr (dictMem_of_get hold)

/-! Small list lemmas used by the step and fold lemmas. -/

theorem contains_append_one {l : List String} {x k : String}
    (h : l.contains k = true) : (l ++ [x]).contains k = true := by
  simp only [List.contains, List.elem_eq_mem, decide_eq_true_eq] at h ⊢
  exact List.mem_append_left _ h

theorem contains_append_self (l : List String) (x : String) :
    (l ++ [x]).contains x = true := by
  simp only [List.contains, List.elem_eq_mem, decide_eq_true_eq]
  exact List.mem_append_right _ (by simp)

theorem contains_false_of_append {l : List String} {x k : String}
    (h : (l ++ [x]).contains k = false) : l.contains k = false := by
  cases hl : l.contains k with
  | false => rfl
  | true => rw [contains_append_one hl] at h; cases h

theorem mem_of_contains {l : List String} {k : String}
    (h : l.contains k = true) : k ∈ l := by
  simpa only [List.contains, List.elem_eq_mem, decide_eq_true_eq] using h

theorem contains_of_mem {l : List String} {k : String} (h : k ∈ l) :
    l.contains k = true := by
  simpa only [List.contains, List.elem_eq_mem, decide_eq_true_eq] using h

theorem getD_mem {α : Type} {l : List α} {i : Nat} (d : α) (h : i < l.length) :
    l.getD i d ∈ l := by
  induction l generalizing i with
  | nil => simp at h
  | cons a rest ih =>
      cases i with
      | zero => simp [List.getD]
      | succ n =>
          have : n < rest.length := by simpa using h
          simpa [List.getD] using Or.inr (ih this)

/-! A first-match characterization of `List.find?`, used for the
Primary-source containment-matching claim. -/

theorem find?_first_iff {α : Type} (p : α → Bool) (l : List α) (a : α) :
    l.find? p = some a ↔
      ∃ i, l.get? i = some a ∧ p a = true ∧
        ∀ j, j < i → ∀ b, l.get? j = some b → p b = false := by
  induction l with
  | nil => simp
  | cons x xs ih =>
      by_cases hx : p x = true
      · rw [List.find?_cons_of_pos _ hx]
        constructor
        · intro h
          cases h
          exact ⟨0, rfl, hx, fun j hj => absurd hj (Nat.not_lt_zero j)⟩
        · rintro ⟨i, hi, hpa, hmin⟩
          cases i with
          | zero =>
              simp only [List.get?_cons_zero, Option.some.injEq] at hi
              rw [hi]
          | succ n =>
              have h0 := hmin 0 (Nat.succ_pos n) x rfl
              rw [h0] at hx
              cases hx
      · rw [List.find?_cons_of_neg _ (by simpa using hx)]
        rw [ih]
        constructor
        · rintro ⟨i, hi, hpa, hmin⟩
          refine ⟨i + 1, by simpa using hi, hpa, ?_⟩
          intro j hj b hb
          cases j with
          | zero =>
              simp only [List.get?_cons_zero, Option.some.injEq] at hb
              subst hb
              exact Bool.eq_false_iff.mpr hx
          | succ n =>
              exact hmin n (Nat.lt_of_succ_lt_succ hj) b (by simpa using hb)
        · rintro ⟨i, hi, hpa, hmin⟩
          cases i with
          | zero =>
              simp only [List.get?_cons_zero, Option.some.injEq] at hi
              rw [← hi] at hpa
              exact absurd hpa hx
          | succ n =>
              refine ⟨n, by simpa using hi, hpa, ?_⟩
              intro j hj b hb
              exact hmin (j + 1) (Nat.succ_lt_succ hj) b (by simpa using hb)

/-! Lemmas about the MSAMB (Primary source) row loop. -/

theorem msambMatchTarget_facts {name : String} {avg : Int} {t : String}
    (h : msambMatchTarget name avg = some t) :
    0 < avg ∧ strContains name t = true ∧ t ∈ LOCAL_MARKETS := by
  have hp := List.find?_some h
  have hm := List.mem_of_find?_eq_some h
  simp only [Bool.and_eq_true, decide_eq_true_eq] at hp
  exact ⟨hp.2, hp.1, hm⟩

theorem msambStep_cases (st : String × CropState) (row : List MsambCell) :
    (msambStep st row).2.outstate = st.2.outstate ∧
    ((msambStep st row).2.local_ = st.2.local_ ∨
      ∃ t, row.length = 7 ∧ dictMem st.2.local_ t = false ∧
        msambMatchTarget (strStrip (row.getD 0 emptyCell).text)
          (clean_price (strStrip (row.getD 6 emptyCell).text)) = some t ∧
        (msambStep st row).2.local_ =
          dictInsert st.2.local_ t (msambRecordOf row st.1)) := by
  unfold msambStep
  split
  · exact ⟨rfl, Or.inl rfl⟩
  · split
    · rename_i hlen
      split
      · rename_i target hmatch
        split
        · exact ⟨rfl, Or.inl rfl⟩
        · rename_i hmem
          refine ⟨rfl, Or.inr ⟨target, by simpa using hlen, ?_, hmatch, rfl⟩⟩
          exact Bool.eq_false_iff.mpr hmem
      · exact ⟨rfl, Or.inl rfl⟩
    · exact ⟨rfl, Or.inl rfl⟩

theorem msambStep_local_preserve (st : String × CropState) (row : List MsambCell)
    {k : String} {v : PriceRecord} (h : dictGet st.2.local_ k = some v) :
    dictGet (msambStep st row).2.local_ k = some v := by
  rcases (msambStep_cases st row).2 with heq | ⟨t, _, hmem, _, heq⟩
  · rw [heq]; exact h
  · rw [heq]
    have hk : k ≠ t := by
      intro hkt
      subst hkt
      rw [dictMem_of_get h] at hmem
      exact absurd hmem (by decide)
    rw [dictGet_insert_ne _ _ _ _ hk]
    exact h

theorem msambStep_local_new (st : String × CropState) (row : List MsambCell)
    {k : String} {v : PriceRecord}
    (h : dictGet (msambStep st row).2.local_ k = some v) :
    dictGet st.2.local_ k = some v ∨
      (0 < v.modal_price ∧ (∃ x, v.min_price = some x) ∧ (∃ x, v.max_price = some x) ∧
        (∃ x, v.arrival = some x) ∧ (∃ d, v.trade_date = some d)) := by
  rcases (msambStep_cases st row).2 with heq | ⟨t, _, _, hmatch, heq⟩
  · rw [heq] at h; exact Or.inl h
  · rw [heq] at h
    rcases dictGet_insert_cases _ _ _ _ _ h with ⟨_, hv⟩ | hold
    · subst hv
      exact Or.inr ⟨(msambMatchTarget_facts hmatch).1, ⟨_, rfl⟩, ⟨_, rfl⟩, ⟨_, rfl⟩, ⟨_, rfl⟩⟩
    · exact Or.inl hold

theorem msambRows_master (rows : List (List MsambCell)) (init : String × CropState) :
    (msambProcessRows rows init).2.outstate = init.2.outstate ∧
    (∀ k v, dictGet init.2.local_ k = some v →
        dictGet (msambProcessRows rows init).2.local_ k = some v) ∧
    (∀ k v, dictGet (msambProcessRows rows init).2.local_ k = some v →
        dictGet init.2.local_ k = some v ∨
          (0 < v.modal_price ∧ (∃ x, v.min_price = some x) ∧ (∃ x, v.max_price = some x) ∧
            (∃ x, v.arrival = some x) ∧ (∃ d, v.trade_date = some d))) := by
  induction rows generalizing init with
  | nil => exact ⟨rfl, fun k v h => h, fun k v h => Or.inl h⟩
  | cons row rest ih =>
      have hstep := msambStep_cases init row
      have hrec := ih (msambStep init row)
      have hfold : msambProcessRows (row :: rest) init =
          msambProcessRows rest (msambStep init row) := by
        simp [msambProcessRows]
      rw [hfold]
      refine ⟨hrec.1.trans hstep.1, ?_, ?_⟩
      · intro k v h
        exact hrec.2.1 k v (msambStep_local_preserve init row h)
      · intro k v h
        rcases hrec.2.2 k v h with hmid | hshape
        · exact msambStep_local_new init row hmid
        · exact Or.inr hshape

/-! Lemmas about the CommodityOnline (Secondary source) row loop. -/

theorem coMatchCase2_mem {norm : String} {missing : List String} {m : String}
    (h : coMatchCase2 norm missing = some m) : m ∈ missing :=
  List.mem_of_find?_eq_some h

theorem coBranch_cases (h : Bool) (st : CoState)
    (name variety slow norm : String) (price : Int) :
    coBranch h st name variety slow norm price = st ∨
    (∃ key, h = false ∧
      coBranch h st name variety slow norm price =
        ⟨⟨dictInsert st.cs.local_ key (coRecord price variety), st.cs.outstate⟩,
          st.missing, st.processed ++ [name]⟩) ∨
    (∃ m, h = true ∧ coMatchCase2 norm st.missing = some m ∧
      coBranch h st name variety slow norm price =
        ⟨⟨dictInsert st.cs.local_ m (coRecord price variety), st.cs.outstate⟩,
          st.missing.erase m, st.processed ++ [name]⟩) ∨
    coBranch h st name variety slow norm price =
      ⟨⟨st.cs.local_, dictInsert st.cs.outstate name (coRecord price variety)⟩,
        st.missing, st.processed ++ [name]⟩ := by
  unfold coBranch
  split
  · rename_i hh
    split
    · exact Or.inr (Or.inl ⟨coMatchCase1 norm name, by simpa using hh, rfl⟩)
    · exact Or.inr (Or.inr (Or.inr rfl))
  · rename_i hh
    have hht : h = true := by simpa using hh
    split
    · split
      · rename_i m hm
        exact Or.inr (Or.inr (Or.inl ⟨m, hht, hm, rfl⟩))
      · exact Or.inl rfl
    · split
      · exact Or.inl rfl
      · exact Or.inr (Or.inr (Or.inr rfl))

theorem coStep_some {h : Bool} {st : CoState} {row : List String} {st2 : CoState}
    (hs : coStep h st row = some st2) :
    st2 = st ∨
    ∃ price, 0 < price ∧
      extract_co_price (strStrip (row.getD 8 "")) = Except.ok price ∧
      st.processed.contains (strStrip (row.getD 5 "")) = false ∧
      ¬ row.length < 9 ∧
      st2 = coBranch h st (strStrip (row.getD 5 "")) (strStrip (row.getD 2 ""))
        (strLower (strStrip (row.getD 3 "")))
        (removeSpacesHyphens (strLower (strStrip (row.getD 5 "")))) price := by
  unfold coStep at hs
  split at hs
  · exact Or.inl (Option.some.inj hs).symm
  · rename_i hlen
    split at hs
    · cases hs
    · rename_i price hex
      split at hs
      · exact Or.inl (Option.some.inj hs).symm
      · rename_i hcond
        simp only [Bool.or_eq_true, decide_eq_true_eq, not_or, Bool.not_eq_true] at hcond
        refine Or.inr ⟨price, ?_, hex, hcond.2, hlen, (Option.some.inj hs).symm⟩
        exact lt_of_not_le hcond.1

theorem coStep_preserve {h : Bool} {st st2 : CoState} {row : List String}
    (hs : coStep h st row = some st2) (ho : OutInv st) (hm : MissInv h st) :
    OutInv st2 ∧ MissInv h st2 ∧
    (∀ k v, dictGet st.cs.outstate k = some v → dictGet st2.cs.outstate k = some v) ∧
    (h = true → ∀ k v, dictGet st.cs.local_ k = some v → dictGet st2.cs.local_ k = some v) ∧
    (∀ m ∈ st2.missing, m ∈ st.missing) ∧
    (∀ k v, dictGet st2.cs.outstate k = some v →
        dictGet st.cs.outstate k = some v ∨ CoShape v) ∧
    (∀ k v, dictGet st2.cs.local_ k = some v →
        dictGet st.cs.local_ k = some v ∨ CoShape v) ∧
    (h = true → ∀ k v, dictGet st2.cs.local_ k = some v →
        dictGet st.cs.local_ k = some v ∨
          (k ∈ st.missing ∧ ¬ k ∈ st2.missing ∧ CoShape v)) := by
  rcases coStep_some hs with rfl | ⟨price, hpos, _, hproc, _, hbr⟩
  · exact ⟨ho, hm, fun k v hv => hv, fun _ k v hv => hv, fun m hmm => hmm,
      fun k v hv => Or.inl hv, fun k v hv => Or.inl hv, fun _ k v hv => Or.inl hv⟩
  · rcases coBranch_cases h st (strStrip (row.getD 5 "")) (strStrip (row.getD 2 ""))
        (strLower (strStrip (row.getD 3 "")))
        (removeSpacesHyphens (strLower (strStrip (row.getD 5 "")))) price with
      hbe | ⟨key, hh, hbe⟩ | ⟨m, hh, hmm, hbe⟩ | hbe
    -- branch: state unchanged
    · rw [hbe] at hbr
      subst hbr
      exact ⟨ho, hm, fun k v hv => hv, fun _ k v hv => hv, fun m hmm => hmm,
        fun k v hv => Or.inl hv, fun k v hv => Or.inl hv, fun _ k v hv => Or.inl hv⟩
    -- branch: CASE 1 local write (no-MSAMB crop); may overwrite local
    · rw [hbe] at hbr
      subst hbr
      subst hh
      have hmiss0 : st.missing = [] := hm.1 rfl
      refine ⟨?_, ⟨fun _ => hmiss0, ?_, hm.2.2⟩, fun k v hv => hv, ?_, fun m hmm => hmm,
        fun k v hv => Or.inl hv, ?_, ?_⟩
      · intro k hk
        exact contains_append_one (ho k hk)
      · intro m hmm
        rw [hmiss0] at hmm
        cases hmm
      · intro hft; cases hft
      · intro k v hv
        rcases dictGet_insert_cases _ _ _ _ _ hv with ⟨_, hvv⟩ | hold
        · subst hvv
          exact Or.inr ⟨rfl, rfl, rfl, rfl, hpos⟩
        · exact Or.inl hold
      · intro hft; cases hft
    -- branch: CASE 2 local fallback write (MSAMB crop)
    · rw [hbe] at hbr
      subst hbr
      subst hh
      have hmmem : m ∈ st.missing := coMatchCase2_mem hmm
      have hmloc : dictMem st.cs.local_ m = false := hm.2.1 m hmmem
      have hnotin : ¬ m ∈ st.missing.erase m := hm.2.2.not_mem_erase
      refine ⟨?_, ⟨fun hft => absurd hft (by decide), ?_, hm.2.2.erase m⟩, fun k v hv => hv, ?_,
        fun m' hmm' => List.mem_of_mem_erase hmm', fun k v hv => Or.inl hv, ?_, ?_⟩
      · intro k hk
        exact contains_append_one (ho k hk)
      · intro m' hm'
        have hm'mem : m' ∈ st.missing := List.mem_of_mem_erase hm'
        have hm'loc : dictMem st.cs.local_ m' = false := hm.2.1 m' hm'mem
        cases hdm : dictMem (dictInsert st.cs.local_ m (coRecord price
            (strStrip (row.getD 2 "")))) m' with
        | false => rfl
        | true =>
            rcases dictMem_insert_cases hdm with rfl | hold
            · exact absurd hm' hnotin
            · rw [hold] at hm'loc
              exact absurd hm'loc (by decide)
      · intro _ k v hv
        have hk : k ≠ m := by
          intro hkk
          subst hkk
          rw [dictMem_of_get hv] at hmloc
          exact absurd hmloc (by decide)
        rw [dictGet_insert_ne _ _ _ _ hk]
        exact hv
      · intro k v hv
        rcases dictGet_insert_cases _ _ _ _ _ hv with ⟨_, hvv⟩ | hold
        · subst hvv
          exact Or.inr ⟨rfl, rfl, rfl, rfl, hpos⟩
        · exact Or.inl hold
      · intro _ k v hv
        rcases dictGet_insert_cases _ _ _ _ _ hv with ⟨hk, hvv⟩ | hold
        · subst hk
          subst hvv
          exact Or.inr ⟨hmmem, hnotin, rfl, rfl, rfl, rfl, hpos⟩
        · exact Or.inl hold
    -- branch: outstate write
    · rw [hbe] at hbr
      subst hbr
      refine ⟨?_, ⟨hm.1, hm.2.1, hm.2.2⟩, ?_, fun _ k v hv => hv, fun m hmm => hmm, ?_,
        fun k v hv => Or.inl hv, fun _ k v hv => Or.inl hv⟩
      · intro k hk
        rcases dictMem_insert_cases hk with rfl | hold
        · exact contains_append_self _ _
        · exact contains_append_one (ho k hold)
      · intro k v hv
        have hk : k ≠ strStrip (row.getD 5 "") := by
          intro hkk
          subst hkk
          rw [ho _ (dictMem_of_get hv)] at hproc
          exact absurd hproc (by decide)
        rw [dictGet_insert_ne _ _ _ _ hk]
        exact hv
      · intro k v hv
        rcases dictGet_insert_cases _ _ _ _ _ hv with ⟨_, hvv⟩ | hold
        · subst hvv
          exact Or.inr ⟨rfl, rfl, rfl, rfl, hpos⟩
        · exact Or.inl hold

theorem coRows_master (h : Bool) (rows : List (List String)) (st : CoState)
    (ho : OutInv st) (hm : MissInv h st) :
    OutInv (coProcessRows h rows st) ∧ MissInv h (coProcessRows h rows st) ∧
    (∀ k v, dictGet st.cs.outstate k = some v →
        dictGet (coProcessRows h rows st).cs.outstate k = some v) ∧
    (h = true → ∀ k v, dictGet st.cs.local_ k = some v →
        dictGet (coProcessRows h rows st).cs.local_ k = some v) ∧
    (∀ m ∈ (coProcessRows h rows st).missing, m ∈ st.missing) ∧
    (∀ k v, dictGet (coProcessRows h rows st).cs.outstate k = some v →
        dictGet st.cs.outstate k = some v ∨ CoShape v) ∧
    (∀ k v, dictGet (coProcessRows h rows st).cs.local_ k = some v →
        dictGet st.cs.local_ k = some v ∨ CoShape v) ∧
    (h = true → ∀ k v, dictGet (coProcessRows h rows st).cs.local_ k = some v →
        dictGet st.cs.local_ k = some v ∨
          (k ∈ st.missing ∧ ¬ k ∈ (coProcessRows h rows st).missing ∧ CoShape v)) := by
  induction rows generalizing st with
  | nil =>
      exact ⟨ho, hm, fun k v hv => hv, fun _ k v hv => hv, fun m hmm => hmm,
        fun k v hv => Or.inl hv, fun k v hv => Or.inl hv, fun _ k v hv => Or.inl hv⟩
  | cons row rest ih =>
      cases hstep : coStep h st row with
      | none =>
          have hfold : coProcessRows h (row :: rest) st = st := by
            simp [coProcessRows, hstep]
          rw [hfold]
          exact ⟨ho, hm, fun k v hv => hv, fun _ k v hv => hv, fun m hmm => hmm,
            fun k v hv => Or.inl hv, fun k v hv => Or.inl hv, fun _ k v hv => Or.inl hv⟩
      | some st2 =>
          have hfold : coProcessRows h (row :: rest) st = coProcessRows h rest st2 := by
            simp [coProcessRows, hstep]
          rw [hfold]
          obtain ⟨ho2, hm2, hpres_out, hpres_loc, hshrink, hnew_out, hnew_loc, hnew8⟩ :=
            coStep_preserve hstep ho hm
          obtain ⟨ho3, hm3, ih_out, ih_loc, ih_shrink, ih_new_out, ih_new_loc, ih_new8⟩ :=
            ih st2 ho2 hm2
          refine ⟨ho3, hm3, ?_, ?_, ?_, ?_, ?_, ?_⟩
          · intro k v hv
            exact ih_out k v (hpres_out k v hv)
          · intro hft k v hv
            exact ih_loc hft k v (hpres_loc hft k v hv)
          · intro m hmm
            exact hshrink m (ih_shrink m hmm)
          · intro k v hv
            rcases ih_new_out k v hv with hmid | hsh
            · exact hnew_out k v hmid
            · exact Or.inr hsh
          · intro k v hv
            rcases ih_new_loc k v hv with hmid | hsh
            · exact hnew_loc k v hmid
            · exact Or.inr hsh
          · intro hft k v hv
            rcases ih_new8 hft k v hv with hmid | ⟨hk2, hnk, hsh⟩
            · rcases hnew8 hft k v hmid with hold | ⟨hk1, hnk1, hsh1⟩
              · exact Or.inl hold
              · exact Or.inr ⟨hk1, fun hkf => hnk1 (ih_shrink k hkf), hsh1⟩
            · exact Or.inr ⟨hshrink k hk2, hnk, hsh⟩

theorem coProcessRows_append (h : Bool) (pre suf : List (List String)) (st : CoState) :
    coProcessRows h (pre ++ suf) st = coProcessRows h suf (coProcessRows h pre st) ∨
    coProcessRows h (pre ++ suf) st = coProcessRows h pre st := by
  induction pre generalizing st with
  | nil => exact Or.inl rfl
  | cons r rest ih =>
      cases hstep : coStep h st r with
      | some st2 =>
          have h1 : coProcessRows h ((r :: rest) ++ suf) st =
              coProcessRows h (rest ++ suf) st2 := by
            simp [coProcessRows, hstep]
          have h2 : coProcessRows h (r :: rest) st = coProcessRows h rest st2 := by
            simp [coProcessRows, hstep]
          rw [h1, h2]
          exact ih st2
      | none =>
          have h1 : coProcessRows h ((r :: rest) ++ suf) st = st := by
            simp [coProcessRows, hstep]
          have h2 : coProcessRows h (r :: rest) st = st := by
            simp [coProcessRows, hstep]
          rw [h1, h2]
          exact Or.inr rfl

theorem msambProcessRows_append (pre suf : List (List MsambCell))
    (init : String × CropState) :
    msambProcessRows (pre ++ suf) init = msambProcessRows suf (msambProcessRows pre init) := by
  simp [msambProcessRows, List.foldl_append]

theorem LOCAL_MARKETS_nodup : LOCAL_MARKETS.Nodup := by decide

theorem msambProcess_outstate (rows : List (List MsambCell)) :
    (msambProcess rows).outstate = [] :=
  (msambRows_master rows ("N/A", ⟨[], []⟩)).1

theorem cropCoInit_outInv (h : Bool) (rows : List (List MsambCell)) :
    OutInv (cropCoInit h rows) := by
  intro k hk
  cases h with
  | false => simp [cropCoInit, dictMem] at hk
  | true => simp [cropCoInit, msambProcess_outstate, dictMem] at hk

theorem cropCoInit_cs (rows : List (List MsambCell)) :
    (cropCoInit true rows).cs = msambProcess rows := rfl

theorem cropCoInit_missing (rows : List (List MsambCell)) :
    (cropCoInit true rows).missing =
      LOCAL_MARKETS.filter (fun m => !(dictMem (msambProcess rows).local_ m)) := rfl

theorem cropCoInit_missInv (h : Bool) (rows : List (List MsambCell)) :
    MissInv h (cropCoInit h rows) := by
  cases h with
  | false => exact ⟨fun _ => rfl, by simp [cropCoInit], by simp [cropCoInit]⟩
  | true =>
      refine ⟨fun hft => absurd hft (by decide), ?_, ?_⟩
      · intro m hmm
        rw [cropCoInit_missing] at hmm
        rw [cropCoInit_cs]
        have := (List.mem_filter.mp hmm).2
        simpa using this
      · rw [cropCoInit_missing]
        exact List.Nodup.filter _ LOCAL_MARKETS_nodup

/-! Sign analysis of the numeric cleaning functions. -/

theorem mem_of_mem_strStripList {x : Char} {l : List Char}
    (h : x ∈ strStripList l) : x ∈ l := by
  unfold strStripList at h
  have h1 := List.mem_reverse.mp h
  have h2 := (List.dropWhile_sublist _).subset h1
  have h3 := List.mem_reverse.mp h2
  exact (List.dropWhile_sublist _).subset h3

theorem pyIntOfDigits_nonneg (l : List Char) : 0 ≤ pyIntOfDigits l := by
  unfold pyIntOfDigits
  exact Int.ofNat_nonneg _

theorem pyInt_nonneg {s : String} {n : Int}
    (hminus : ∀ c ∈ s.data, c ≠ '-') (h : pyInt s = some n) : 0 ≤ n := by
  unfold pyInt at h
  by_cases hh : (strStripList s.data).head? = some '-'
  · exfalso
    have hmem : '-' ∈ strStripList s.data := by
      cases hl : strStripList s.data with
      | nil => rw [hl] at hh; exact absurd hh (by simp)
      | cons c rest =>
          rw [hl] at hh
          simp only [List.head?_cons, Option.some.injEq] at hh
          rw [hh]
          exact List.mem_cons_self _ _
    exact hminus '-' (mem_of_mem_strStripList hmem) rfl
  · rw [if_neg hh] at h
    by_cases hp : (strStripList s.data).head? = some '+'
    · rw [if_pos hp] at h
      split at h
      · cases h
        exact pyIntOfDigits_nonneg _
      · cases h
    · rw [if_neg hp] at h
      split at h
      · cases h
        exact pyIntOfDigits_nonneg _
      · cases h

theorem clean_price_nonneg {text : String} (hminus : ∀ c ∈ text.data, c ≠ '-') :
    0 ≤ clean_price text := by
  unfold clean_price
  cases hp : pyInt (strStrip (removeCommas text)) with
  | none => simp
  | some n =>
      have hsub : ∀ c ∈ (strStrip (removeCommas text)).data, c ≠ '-' := by
        intro c hc
        have h1 : c ∈ (removeCommas text).data := mem_of_mem_strStripList hc
        have h2 : c ∈ text.data := List.mem_of_mem_filter h1
        exact hminus c h2
      simpa using pyInt_nonneg hsub hp

/-! Targeted branch-computation lemmas for the CommodityOnline step. -/

theorem coStep_short {h : Bool} {st : CoState} {row : List String}
    (hl : row.length < 9) : coStep h st row = some st := by
  unfold coStep
  rw [if_pos hl]

theorem coStep_err {h : Bool} {st : CoState} {row : List String} {e : Unit}
    (hl : ¬ row.length < 9)
    (he : extract_co_price (strStrip (row.getD 8 "")) = Except.error e) :
    coStep h st row = none := by
  unfold coStep
  rw [if_neg hl, he]

theorem coStep_skip_nonpos {h : Bool} {st : CoState} {row : List String} {price : Int}
    (hl : ¬ row.length < 9)
    (he : extract_co_price (strStrip (row.getD 8 "")) = Except.ok price)
    (hp : price ≤ 0) : coStep h st row = some st := by
  unfold coStep
  simp only [if_neg hl, he]
  have hc : (decide (price ≤ 0) || st.processed.contains (strStrip (row.getD 5 ""))) = true := by
    rw [decide_eq_true hp]
    exact Bool.true_or _
  rw [if_pos hc]

theorem coStep_skip_processed {h : Bool} {st : CoState} {row : List String} {price : Int}
    (hl : ¬ row.length < 9)
    (he : extract_co_price (strStrip (row.getD 8 "")) = Except.ok price)
    (hc : st.processed.contains (strStrip (row.getD 5 "")) = true) :
    coStep h st row = some st := by
  unfold coStep
  simp only [if_neg hl, he]
  have hcc : (decide (price ≤ 0) || st.processed.contains (strStrip (row.getD 5 ""))) = true := by
    rw [hc]
    exact Bool.or_true _
  rw [if_pos hcc]

theorem coStep_branch {h : Bool} {st : CoState} {row : List String} {price : Int}
    (hl : ¬ row.length < 9)
    (he : extract_co_price (strStrip (row.getD 8 "")) = Except.ok price)
    (hpos : 0 < price)
    (hproc : st.processed.contains (strStrip (row.getD 5 "")) = false) :
    coStep h st row = some (coBranch h st (strStrip (row.getD 5 ""))
      (strStrip (row.getD 2 "")) (strLower (strStrip (row.getD 3 "")))
      (removeSpacesHyphens (strLower (strStrip (row.getD 5 "")))) price) := by
  unfold coStep
  simp only [if_neg hl, he]
  have hc : (decide (price ≤ 0) || st.processed.contains (strStrip (row.getD 5 ""))) = false := by
    rw [decide_eq_false (not_le.mpr hpos), hproc]
    rfl
  rw [if_neg (by rw [hc]; exact Bool.false_ne_true)]

theorem coBranch_case1_local {st : CoState} {name variety slow norm : String} {price : Int}
    (hmh : strContains slow "maharashtra" = true) :
    coBranch false st name variety slow norm price =
      ⟨⟨dictInsert st.cs.local_ (coMatchCase1 norm name) (coRecord price variety),
          st.cs.outstate⟩,
        st.missing, st.processed ++ [name]⟩ := by
  unfold coBranch
  simp [hmh]

theorem coBranch_case1_outstate {st : CoState} {name variety slow norm : String} {price : Int}
    (hmh : strContains slow "maharashtra" = false) :
    coBranch false st name variety slow norm price =
      ⟨⟨st.cs.local_, dictInsert st.cs.outstate name (coRecord price variety)⟩,
        st.missing, st.processed ++ [name]⟩ := by
  unfold coBranch
  simp [hmh]

theorem coBranch_case2_hit {st : CoState} {name variety slow norm : String} {price : Int}
    {m : String}
    (hguard : (strContains slow "maharashtra" && !st.missing.isEmpty) = true)
    (hm : coMatchCase2 norm st.missing = some m) :
    coBranch true st name variety slow norm price =
      ⟨⟨dictInsert st.cs.local_ m (coRecord price variety), st.cs.outstate⟩,
        st.missing.erase m, st.processed ++ [name]⟩ := by
  unfold coBranch
  simp [hguard, hm]

theorem coBranch_case3_skip {st : CoState} {name variety slow norm : String} {price : Int}
    (hguard : (strContains slow "maharashtra" && !st.missing.isEmpty) = false)
    (hvar : isMaharashtraVariation slow = true) :
    coBranch true st name variety slow norm price = st := by
  unfold coBranch
  simp [hguard, hvar]

theorem coBranch_case3_outstate {st : CoState} {name variety slow norm : String} {price : Int}
    (hguard : (strContains slow "maharashtra" && !st.missing.isEmpty) = false)
    (hvar : isMaharashtraVariation slow = false) :
    coBranch true st name variety slow norm price =
      ⟨⟨st.cs.local_, dictInsert st.cs.outstate name (coRecord price variety)⟩,
        st.missing, st.processed ++ [name]⟩ := by
  unfold coBranch
  simp [hguard, hvar]

theorem case12_implies_case3 {s : String}
    (h : strContains s "maharashtra" = true) : isMaharashtraVariation s = true := by
  unfold isMaharashtraVariation
  simp only [List.any_eq_true]
  exact ⟨"maharashtra", by simp [MAHARASHTRA_VARIATIONS], h⟩

/-! New-record shape lemmas, used for the row-classification claim. -/

theorem msambStep_new_record {st : String × CropState} {row : List MsambCell}
    {k : String} {v : PriceRecord}
    (hnew : dictGet (msambStep st row).2.local_ k = some v)
    (hold : dictGet st.2.local_ k = none) :
    row.length = 7 ∧ v = msambRecordOf row st.1 := by
  rcases (msambStep_cases st row).2 with heq | ⟨t, hlen, hmem, hmatch, heq⟩
  · rw [heq, hold] at hnew
    cases hnew
  · rw [heq] at hnew
    rcases dictGet_insert_cases _ _ _ _ _ hnew with ⟨hk, hv⟩ | holdv
    · exact ⟨hlen, hv⟩
    · rw [hold] at holdv
      cases holdv

theorem coStep_new_props {h : Bool} {st st2 : CoState} {row : List String}
    (hs : coStep h st row = some st2) :
    (∀ k v, dictGet st2.cs.local_ k = some v → dictGet st.cs.local_ k = some v ∨
        (9 ≤ row.length ∧ v.variety = strStrip (row.getD 2 "") ∧
         extract_co_price (strStrip (row.getD 8 "")) = Except.ok v.modal_price ∧
         0 < v.modal_price ∧ v.min_price = none ∧ v.max_price = none ∧
         v.arrival = none ∧ v.trade_date = none)) ∧
    (∀ k v, dictGet st2.cs.outstate k = some v → dictGet st.cs.outstate k = some v ∨
        (9 ≤ row.length ∧ k = strStrip (row.getD 5 "") ∧
         v.variety = strStrip (row.getD 2 "") ∧
         extract_co_price (strStrip (row.getD 8 "")) = Except.ok v.modal_price ∧
         0 < v.modal_price ∧ v.min_price = none ∧ v.max_price = none ∧
         v.arrival = none ∧ v.trade_date = none)) := by
  rcases coStep_some hs with rfl | ⟨price, hpos, hex, hproc, hlen, hbr⟩
  · exact ⟨fun k v hv => Or.inl hv, fun k v hv => Or.inl hv⟩
  · have hlen9 : 9 ≤ row.length := Nat.le_of_not_lt hlen
    rcases coBranch_cases h st (strStrip (row.getD 5 "")) (strStrip (row.getD 2 ""))
        (strLower (strStrip (row.getD 3 "")))
        (removeSpacesHyphens (strLower (strStrip (row.getD 5 "")))) price with
      hbe | ⟨key, _, hbe⟩ | ⟨m, _, _, hbe⟩ | hbe
    · rw [hbe] at hbr
      subst hbr
      exact ⟨fun k v hv => Or.inl hv, fun k v hv => Or.inl hv⟩
    · rw [hbe] at hbr
      subst hbr
      refine ⟨?_, fun k v hv => Or.inl hv⟩
      intro k v hv
      rcases dictGet_insert_cases _ _ _ _ _ hv with ⟨_, hvv⟩ | holdv
      · subst hvv
        exact Or.inr ⟨hlen9, rfl, hex, hpos, rfl, rfl, rfl, rfl⟩
      · exact Or.inl holdv
    · rw [hbe] at hbr
      subst hbr
      refine ⟨?_, fun k v hv => Or.inl hv⟩
      intro k v hv
      rcases dictGet_insert_cases _ _ _ _ _ hv with ⟨_, hvv⟩ | holdv
      · subst hvv
        exact Or.inr ⟨hlen9, rfl, hex, hpos, rfl, rfl, rfl, rfl⟩
      · exact Or.inl holdv
    · rw [hbe] at hbr
      subst hbr
      refine ⟨fun k v hv => Or.inl hv, ?_⟩
      intro k v hv
      rcases dictGet_insert_cases _ _ _ _ _ hv with ⟨hk, hvv⟩ | holdv
      · subst hvv
        exact Or.inr ⟨hlen9, hk, rfl, hex, hpos, rfl, rfl, rfl, rfl⟩
      · exact Or.inl holdv

/-! Row-shape lemmas for the MSAMB step. -/

theorem msambStep_marker {st : String × CropState} {c : MsambCell}
    (hc : c.hasColspan = true) :
    msambStep st [c] = (strStrip c.text, st.2) := by
  unfold msambStep
  simp [List.getD, hc]

theorem msambStep_single_plain {st : String × CropState} {c : MsambCell}
    (hc : c.hasColspan = false) :
    msambStep st [c] = st := by
  unfold msambStep
  simp [List.getD, hc]

theorem msambStep_other {st : String × CropState} {row : List MsambCell}
    (h1 : row.length ≠ 1) (h7 : row.length ≠ 7) :
    msambStep st row = st := by
  unfold msambStep
  simp [h1, h7]

theorem get?_eq_some_iff_getD {l : List String} {i : Nat} {t : String} :
    l.get? i = some t ↔ i < l.length ∧ l.getD i "" = t := by
  constructor
  · intro h
    rcases List.get?_eq_some.mp h with ⟨hlen, _⟩
    refine ⟨hlen, ?_⟩
    rw [List.getD_eq_get?, h]
    rfl
  · rintro ⟨hlen, hgd⟩
    rw [List.getD_eq_get?] at hgd
    cases hq : l.get? i with
    | none =>
        rw [List.get?_eq_none] at hq
        omega
    | some x =>
        rw [hq, Option.getD_some] at hgd
        rw [hgd]

theorem msambStep_nonneg {init : String × CropState} {row : List MsambCell}
    (H7 : row.length = 7 → ∀ i ∈ ([3, 4, 5, 6] : List Nat),
      ∀ ch ∈ (row.getD i emptyCell).text.data, ch ≠ '-')
    (Hinit : ∀ k v, dictGet init.2.local_ k = some v → NonnegShape v) :
    ∀ k v, dictGet (msambStep init row).2.local_ k = some v → NonnegShape v := by
  intro k v hv
  rcases (msambStep_cases init row).2 with heq | ⟨t, hlen, hmem, hmatch, heq⟩
  · rw [heq] at hv
    exact Hinit k v hv
  · rw [heq] at hv
    rcases dictGet_insert_cases _ _ _ _ _ hv with ⟨_, hvv⟩ | hold
    · subst hvv
      have Hc := H7 hlen
      have hnn : ∀ i, i ∈ ([3, 4, 5, 6] : List Nat) →
          0 ≤ clean_price (strStrip (row.getD i emptyCell).text) := by
        intro i hi
        apply clean_price_nonneg
        intro ch hch
        exact Hc i hi ch (mem_of_mem_strStripList hch)
      refine ⟨le_of_lt (msambMatchTarget_facts hmatch).1, ?_, ?_, ?_⟩
      · intro x hx
        rw [← Option.some.inj hx]
        exact hnn 4 (by simp)
      · intro x hx
        rw [← Option.some.inj hx]
        exact hnn 5 (by simp)
      · intro x hx
        rw [← Option.some.inj hx]
        exact hnn 3 (by simp)
    · exact Hinit k v hold

theorem msambRows_nonneg (rows : List (List MsambCell)) :
    ∀ init : String × CropState,
      (∀ row ∈ rows, row.length = 7 → ∀ i ∈ ([3, 4, 5, 6] : List Nat),
        ∀ ch ∈ (row.getD i emptyCell).text.data, ch ≠ '-') →
      (∀ k v, dictGet init.2.local_ k = some v → NonnegShape v) →
      ∀ k v, dictGet (msambProcessRows rows init).2.local_ k = some v → NonnegShape v := by
  induction rows with
  | nil =>
      intro init _ Hinit
      exact Hinit
  | cons row rest ih =>
      intro init H Hinit
      have hfold : msambProcessRows (row :: rest) init =
          msambProcessRows rest (msambStep init row) := by
        simp [msambProcessRows]
      rw [hfold]
      exact ih (msambStep init row) (fun r hr => H r (List.mem_cons_of_mem _ hr))
        (msambStep_nonneg (H row (List.mem_cons_self _ _)) Hinit)

/-! Shared consequences used by several claims. -/

theorem coShape_nonneg {v : PriceRecord} (h : CoShape v) : NonnegShape v := by
  refine ⟨le_of_lt h.2.2.2.2, ?_, ?_, ?_⟩
  · intro x hx
    rw [h.1] at hx
    exact Option.noConfusion hx
  · intro x hx
    rw [h.2.1] at hx
    exact Option.noConfusion hx
  · intro x hx
    rw [h.2.2.1] at hx
    exact Option.noConfusion hx

theorem cropRun_modal_pos (h : Bool) (msambRows : List (List MsambCell))
    (coRows : List (List String)) :
    (∀ k v, dictGet (cropRun h msambRows coRows).cs.local_ k = some v →
        0 < v.modal_price) ∧
    (∀ k v, dictGet (cropRun h msambRows coRows).cs.outstate k = some v →
        0 < v.modal_price) := by
  have hmaster := coRows_master h coRows (cropCoInit h msambRows)
    (cropCoInit_outInv h msambRows) (cropCoInit_missInv h msambRows)
  constructor
  · intro k v hv
    rcases hmaster.2.2.2.2.2.2.1 k v hv with hinit | hsh
    · cases h with
      | false => simp [cropCoInit, dictGet] at hinit
      | true =>
          rw [cropCoInit_cs] at hinit
          rcases (msambRows_master msambRows ("N/A", ⟨[], []⟩)).2.2 k v hinit with h0 | hsh2
          · simp [dictGet] at h0
          · exact hsh2.1
    · exact hsh.2.2.2.2
  · intro k v hv
    rcases hmaster.2.2.2.2.2.1 k v hv with hinit | hsh
    · cases h with
      | false => simp [cropCoInit, dictGet] at hinit
      | true =>
          have hempty : (cropCoInit true msambRows).cs.outstate = [] := by
            rw [cropCoInit_cs, msambProcess_outstate]
          rw [hempty] at hinit
          simp [dictGet] at hinit
    · exact hsh.2.2.2.2

/-! The claim theorems. -/

/-- Claim C1, counterexample: for the crop with no Primary-source selector,
two distinct Secondary-source raw market names ("Pune" and "Pune City")
both translate to the canonical key "पुणे"; the later row overwrites the
earlier `local` entry (modal price 100 becomes 200), so a canonical key's
value is not write-once. -/
theorem C1_counterexample :
    cocoonCrop ∈ CROPS ∧ cocoonCrop.msamb_val = "" ∧
    puneCoRow1.getD 5 "" = "Pune" ∧ puneCoRow2.getD 5 "" = "Pune City" ∧
    dictGet (cropProcess cocoonCrop [] [puneCoRow1]).local_ "पुणे" =
      some (coRecord 100 "Red") ∧
    dictGet (cropProcess cocoonCrop [] [puneCoRow1, puneCoRow2]).local_ "पुणे" =
      some (coRecord 200 "Red") :=
  ⟨by decide, rfl, rfl, rfl, rfl, rfl⟩

/-- Claim C1, amended: `local` entries are never overwritten by MSAMB rows
nor (for MSAMB-tracked crops) by CommodityOnline rows, and `outstate`
entries are never overwritten for any crop; for a crop with no MSAMB
selector the dedup is by raw market name only (a row whose raw name was
already processed leaves the state unchanged), which is why two distinct
raw names mapping to one canonical key can overwrite. -/
theorem C1_amended :
    (∀ (pre suf : List (List MsambCell)) (init : String × CropState) k v,
        dictGet (msambProcessRows pre init).2.local_ k = some v →
        dictGet (msambProcessRows (pre ++ suf) init).2.local_ k = some v) ∧
    (∀ msambRows (pre suf : List (List String)) k v,
        dictGet (cropRun true msambRows pre).cs.local_ k = some v →
        dictGet (cropRun true msambRows (pre ++ suf)).cs.local_ k = some v) ∧
    (∀ (h : Bool) msambRows (pre suf : List (List String)) k v,
        dictGet (cropRun h msambRows pre).cs.outstate k = some v →
        dictGet (cropRun h msambRows (pre ++ suf)).cs.outstate k = some v) ∧
    (∀ st (row : List String) price, ¬ row.length < 9 →
        extract_co_price (strStrip (row.getD 8 "")) = Except.ok price →
        st.processed.contains (strStrip (row.getD 5 "")) = true →
        coStep false st row = some st) := by
  refine ⟨?_, ?_, ?_, ?_⟩
  · intro pre suf init k v hv
    rw [msambProcessRows_append]
    exact (msambRows_master suf (msambProcessRows pre init)).2.1 k v hv
  · intro msambRows pre suf k v hv
    unfold cropRun at hv ⊢
    rcases coProcessRows_append true pre suf (cropCoInit true msambRows) with heq | heq
    · rw [heq]
      have hmaster := coRows_master true pre (cropCoInit true msambRows)
        (cropCoInit_outInv true msambRows) (cropCoInit_missInv true msambRows)
      exact (coRows_master true suf _ hmaster.1 hmaster.2.1).2.2.2.1 rfl k v hv
    · rw [heq]
      exact hv
  · intro h msambRows pre suf k v hv
    unfold cropRun at hv ⊢
    rcases coProcessRows_append h pre suf (cropCoInit h msambRows) with heq | heq
    · rw [heq]
      have hmaster := coRows_master h pre (cropCoInit h msambRows)
        (cropCoInit_outInv h msambRows) (cropCoInit_missInv h msambRows)
      exact (coRows_master h suf _ hmaster.1 hmaster.2.1).2.2.1 k v hv
    · rw [heq]
      exact hv
  · intro st row price hl he hc
    exact coStep_skip_processed hl he hc

/-- Witness for the amended C1: the outstate entry written by the first
row survives the processing of a further row. -/
theorem C1_witness :
    dictGet (cropRun false [] ([maharastraCoRow] ++ [puneCoRow1])).cs.outstate
      "Satara" = some (coRecord 100 "Var") :=
  C1_amended.2.2.1 false [] [maharastraCoRow] [puneCoRow1] "Satara"
    (coRecord 100 "Var") (by rfl)

/-- Claim C2: `clean_price` resolves unparsable text to 0, but
`extract_co_price` is not total: on an input whose first digit-or-comma
run contains only commas (", ") the Python code raises `ValueError` from
`int('')`, modelled here as `Except.error ()` — contradicting the claim
that the numeric functions never raise. -/
theorem C2_numeric_totality_violation :
    clean_price "N/A" = 0 ∧ clean_price "" = 0 ∧ clean_price ", " = 0 ∧
    extract_co_price "" = Except.ok 0 ∧ extract_co_price "abc" = Except.ok 0 ∧
    extract_co_price ", " = Except.error () :=
  ⟨rfl, rfl, rfl, rfl, rfl, rfl⟩

/-- Claim C3, counterexample: the state spelling "Maharastra" belongs to
the accepted `MAHARASHTRA_VARIATIONS` set, yet for the crop with no
Primary-source selector the row is routed to `outstate` (and `local`
stays empty), because CASE 1 tests only the single substring
"maharashtra". -/
theorem C3_counterexample :
    cocoonCrop.msamb_val = "" ∧
    strStrip (maharastraCoRow.getD 3 "") = "Maharastra" ∧
    strLower "Maharastra" = "maharastra" ∧
    "maharastra" ∈ MAHARASHTRA_VARIATIONS ∧
    (cropProcess cocoonCrop [] [maharastraCoRow]).local_ = [] ∧
    dictGet (cropProcess cocoonCrop [] [maharastraCoRow]).outstate "Satara" =
      some (coRecord 100 "Var") :=
  ⟨rfl, rfl, rfl, by decide, rfl, rfl⟩

/-- Claim C3, amended: CASE 1 and CASE 2 classify local-region by the
single case-insensitive substring test "maharashtra" against the state
field; the three-spelling set only governs the CASE 3 outstate skip (and
is implied by the single test). Consequently a row matching only
"maharastra" or "mh" goes to `outstate` for a no-MSAMB crop, and is
dropped entirely for an MSAMB-tracked crop. -/
theorem C3_amended :
    (∀ s : String, strContains (strLower s) "maharashtra" = true →
        isMaharashtraVariation (strLower s) = true) ∧
    (∀ st (row : List String) price, ¬ row.length < 9 →
        extract_co_price (strStrip (row.getD 8 "")) = Except.ok price → 0 < price →
        st.processed.contains (strStrip (row.getD 5 "")) = false →
        strContains (strLower (strStrip (row.getD 3 ""))) "maharashtra" = false →
        coStep false st row = some
          ⟨⟨st.cs.local_, dictInsert st.cs.outstate (strStrip (row.getD 5 ""))
              (coRecord price (strStrip (row.getD 2 "")))⟩,
            st.missing, st.processed ++ [strStrip (row.getD 5 "")]⟩) ∧
    (∀ st (row : List String) price, ¬ row.length < 9 →
        extract_co_price (strStrip (row.getD 8 "")) = Except.ok price → 0 < price →
        st.processed.contains (strStrip (row.getD 5 "")) = false →
        strContains (strLower (strStrip (row.getD 3 ""))) "maharashtra" = false →
        isMaharashtraVariation (strLower (strStrip (row.getD 3 ""))) = true →
        coStep true st row = some st) := by
  refine ⟨?_, ?_, ?_⟩
  · intro s hs
    exact case12_implies_case3 hs
  · intro st row price hl he hpos hproc hmh
    rw [coStep_branch hl he hpos hproc, coBranch_case1_outstate hmh]
  · intro st row price hl he hpos hproc hmh hvar
    rw [coStep_branch hl he hpos hproc]
    rw [coBranch_case3_skip (by rw [hmh]; rfl) hvar]

/-- Witness for the amended C3: an MSAMB-tracked crop's row with state
"MH" is skipped entirely. -/
theorem C3_witness :
    coStep true (cropCoInit true []) mhCoRow = some (cropCoInit true []) :=
  C3_amended.2.2 (cropCoInit true []) mhCoRow 100 (by decide) rfl (by decide)
    rfl rfl rfl

/-- Claim C4: for an MSAMB-tracked crop, every `local` entry that was not
produced by the Primary source carries only a modal price and a variety
(no min, max, arrival or trade date), its key is a configured canonical
market from the missing set, the key is removed from the missing set, and
`local` entries are never overwritten by later Secondary rows. -/
theorem C4_fallback_fill :
    (∀ msambRows coRows k v,
        dictGet (cropRun true msambRows coRows).cs.local_ k = some v →
        dictGet (msambProcess msambRows).local_ k = none →
          v.min_price = none ∧ v.max_price = none ∧ v.arrival = none ∧
          v.trade_date = none ∧ k ∈ LOCAL_MARKETS ∧
          k ∈ (cropCoInit true msambRows).missing ∧
          ¬ k ∈ (cropRun true msambRows coRows).missing) ∧
    (∀ msambRows (pre suf : List (List String)) k v,
        dictGet (cropRun true msambRows pre).cs.local_ k = some v →
        dictGet (cropRun true msambRows (pre ++ suf)).cs.local_ k = some v) := by
  constructor
  · intro msambRows coRows k v hv hnone
    unfold cropRun at hv ⊢
    have hmaster := coRows_master true coRows (cropCoInit true msambRows)
      (cropCoInit_outInv true msambRows) (cropCoInit_missInv true msambRows)
    rcases hmaster.2.2.2.2.2.2.2 rfl k v hv with hinit | ⟨hmiss, hnmiss, hsh⟩
    · rw [cropCoInit_cs, hnone] at hinit
      exact Option.noConfusion hinit
    · have hkmem : k ∈ LOCAL_MARKETS := by
        have hmf := hmiss
        rw [cropCoInit_missing] at hmf
        exact (List.mem_filter.mp hmf).1
      exact ⟨hsh.1, hsh.2.1, hsh.2.2.1, hsh.2.2.2.1, hkmem, hmiss, hnmiss⟩
  · intro msambRows pre suf k v hv
    unfold cropRun at hv ⊢
    rcases coProcessRows_append true pre suf (cropCoInit true msambRows) with heq | heq
    · rw [heq]
      have hmaster := coRows_master true pre (cropCoInit true msambRows)
        (cropCoInit_outInv true msambRows) (cropCoInit_missInv true msambRows)
      exact (coRows_master true suf _ hmaster.1 hmaster.2.1).2.2.2.1 rfl k v hv
    · rw [heq]
      exact hv

/-- Witness for C4: the wheat fallback scenario — "सातारा" is filled from
the Secondary source with price and variety only, and leaves the missing
set. -/
theorem C4_witness :
    (coRecord 2200 "Sharbati").min_price = none ∧
    (coRecord 2200 "Sharbati").max_price = none ∧
    (coRecord 2200 "Sharbati").arrival = none ∧
    (coRecord 2200 "Sharbati").trade_date = none ∧
    "सातारा" ∈ LOCAL_MARKETS ∧
    "सातारा" ∈ (cropCoInit true []).missing ∧
    ¬ "सातारा" ∈ (cropRun true [] [sataraCoRow]).missing :=
  C4_fallback_fill.1 [] [sataraCoRow] "सातारा" (coRecord 2200 "Sharbati")
    (by rfl) (by rfl)

/-- Claim C5: row classification — a Primary-source row with one
colspan-bearing cell is a date marker setting the active trade date; a
one-cell row without colspan, and any row that is neither 1- nor 7-cell,
is discarded; every record stored by a 7-cell data row is built from the
fixed columns with the active trade date attached; a Secondary-source row
with fewer than nine cells is discarded; and every record a
Secondary-source row stores takes its variety from cell 2, its modal
price from cell 8 (its key from cell 5 for outstate), and never carries a
trade date. -/
theorem C5_row_classification :
    (∀ (st : String × CropState) (c : MsambCell), c.hasColspan = true →
        msambStep st [c] = (strStrip c.text, st.2)) ∧
    (∀ (st : String × CropState) (c : MsambCell), c.hasColspan = false →
        msambStep st [c] = st) ∧
    (∀ (st : String × CropState) (row : List MsambCell),
        row.length ≠ 1 → row.length ≠ 7 → msambStep st row = st) ∧
    (∀ (st : String × CropState) (row : List MsambCell) k v,
        dictGet (msambStep st row).2.local_ k = some v →
        dictGet st.2.local_ k = none →
        row.length = 7 ∧ v = msambRecordOf row st.1) ∧
    (∀ (h : Bool) (st : CoState) (row : List String), row.length < 9 →
        coStep h st row = some st) ∧
    (∀ (h : Bool) (st st2 : CoState) (row : List String),
        coStep h st row = some st2 →
        (∀ k v, dictGet st2.cs.local_ k = some v →
            dictGet st.cs.local_ k = some v ∨
              (9 ≤ row.length ∧ v.variety = strStrip (row.getD 2 "") ∧
               extract_co_price (strStrip (row.getD 8 "")) =
                 Except.ok v.modal_price ∧ v.trade_date = none)) ∧
        (∀ k v, dictGet st2.cs.outstate k = some v →
            dictGet st.cs.outstate k = some v ∨
              (9 ≤ row.length ∧ k = strStrip (row.getD 5 "") ∧
               v.variety = strStrip (row.getD 2 "") ∧
               extract_co_price (strStrip (row.getD 8 "")) =
                 Except.ok v.modal_price ∧ v.trade_date = none))) := by
  refine ⟨?_, ?_, ?_, ?_, ?_, ?_⟩
  · intro st c hc
    exact msambStep_marker hc
  · intro st c hc
    exact msambStep_single_plain hc
  · intro st row h1 h7
    exact msambStep_other h1 h7
  · intro st row k v hnew hold
    exact msambStep_new_record hnew hold
  · intro h st row hl
    exact coStep_short hl
  · intro h st st2 row hs
    have hp := coStep_new_props hs
    refine ⟨?_, ?_⟩
    · intro k v hv
      rcases hp.1 k v hv with hold | ⟨hlen, hvar, hex, _, _, _, _, htd⟩
      · exact Or.inl hold
      · exact Or.inr ⟨hlen, hvar, hex, htd⟩
    · intro k v hv
      rcases hp.2 k v hv with hold | ⟨hlen, hk, hvar, hex, _, _, _, _, htd⟩
      · exact Or.inl hold
      · exact Or.inr ⟨hlen, hk, hvar, hex, htd⟩

/-- Witness for C5: a date marker updates the active trade date, stray
shapes are discarded in both sources. -/
theorem C5_witness :
    msambStep ("N/A", ⟨[], []⟩) markerRow = ("Trade Date: 01-01-2024", ⟨[], []⟩) ∧
    msambStep ("N/A", ⟨[], []⟩) [⟨"stray", false⟩] = ("N/A", ⟨[], []⟩) ∧
    msambStep ("N/A", ⟨[], []⟩) [] = ("N/A", ⟨[], []⟩) ∧
    coStep true ⟨⟨[], []⟩, [], []⟩ ["too", "short"] = some ⟨⟨[], []⟩, [], []⟩ :=
  ⟨C5_row_classification.1 _ _ rfl, C5_row_classification.2.1 _ _ rfl,
    C5_row_classification.2.2.1 _ _ (by decide) (by decide),
    C5_row_classification.2.2.2.2.1 _ _ _ (by decide)⟩

/-- Claim C6: the onion end-to-end scenario — a date-marker row followed
by the 7-column पुणे data row yields exactly the expected `local` entry
with all fields and the active trade date. -/
theorem C6_onion_scenario :
    onionCrop ∈ CROPS ∧
    cropProcess onionCrop [markerRow, puneDataRow] [] =
      ⟨[("पुणे", ⟨1800, some 1500, some 2000, some 120, "Red",
          some "Trade Date: 01-01-2024"⟩)], []⟩ :=
  ⟨by decide, rfl⟩

/-- Claim C7: a Primary-source raw market name matches a canonical market
iff (given a positive modal price) the canonical string is a substring of
the raw name and it is the first such entry of the ordered
`LOCAL_MARKETS` list. -/
theorem C7_containment_first_match (name : String) (avg : Int) (t : String)
    (hp : 0 < avg) :
    msambMatchTarget name avg = some t ↔
      ∃ i, i < LOCAL_MARKETS.length ∧ LOCAL_MARKETS.getD i "" = t ∧
        strContains name t = true ∧
        ∀ j, j < i → strContains name (LOCAL_MARKETS.getD j "") = false := by
  unfold msambMatchTarget
  have hdec : (fun target => strContains name target && decide (0 < avg)) =
      (fun target => strContains name target) := by
    funext target
    rw [decide_eq_true hp, Bool.and_true]
  rw [hdec, find?_first_iff]
  constructor
  · rintro ⟨i, hi, hpa, hmin⟩
    rcases get?_eq_some_iff_getD.mp hi with ⟨hlen, hgd⟩
    refine ⟨i, hlen, hgd, hpa, ?_⟩
    intro j hj
    have hjlen : j < LOCAL_MARKETS.length := lt_trans hj hlen
    exact hmin j hj _ (get?_eq_some_iff_getD.mpr ⟨hjlen, rfl⟩)
  · rintro ⟨i, hlen, hgd, hpa, hmin⟩
    refine ⟨i, get?_eq_some_iff_getD.mpr ⟨hlen, hgd⟩, hpa, ?_⟩
    intro j hj b hb
    rcases get?_eq_some_iff_getD.mp hb with ⟨hjl, hbg⟩
    rw [← hbg]
    exact hmin j hj

/-- Witness for C7: "पुणे" (index 6 of the canonical list) is the first
substring match for the raw name "पुणे- मंडई". -/
theorem C7_witness :
    msambMatchTarget "पुणे- मंडई" 1800 = some "पुणे" :=
  (C7_containment_first_match "पुणे- मंडई" 1800 "पुणे" (by decide)).mpr
    ⟨6, by decide, rfl, rfl, by decide⟩

/-- Claim C8: the two concrete cleanings hold, but the general
description of `extract_co_price` fails on an input with no digit run
whose first digit-or-comma run is all commas: the code raises
(`Except.error`) instead of returning 0. -/
theorem C8_numeric_eval :
    clean_price " 2,500 " = 2500 ∧
    extract_co_price "₹ 2,500 per qtl" = Except.ok 2500 ∧
    extract_co_price "a, b" = Except.error () :=
  ⟨rfl, rfl, rfl⟩

/-- Claim C9, counterexample: an MSAMB data row whose arrival cell reads
"-5" stores arrival = -5 < 0 in `local`, refuting the claim that every
numeric field of every stored record is nonnegative for every possible
cell text. -/
theorem C9_counterexample :
    negArrivalRow.getD 3 emptyCell = ⟨"-5", false⟩ ∧
    dictGet (cropProcess onionCrop [negArrivalRow] []).local_ "पुणे" =
      some ⟨1800, some 1500, some 2000, some (-5), "X", some "N/A"⟩ ∧
    (-5 : Int) < 0 :=
  ⟨rfl, rfl, by decide⟩

/-- Claim C9, amended: stored modal prices are always nonnegative; and if
the numeric cells (columns 3-6) of every 7-column Primary-source row
contain no minus sign, then every numeric field of every stored record is
nonnegative. -/
theorem C9_amended :
    (∀ (h : Bool) msambRows coRows k v,
        dictGet (cropRun h msambRows coRows).cs.local_ k = some v ∨
          dictGet (cropRun h msambRows coRows).cs.outstate k = some v →
        0 ≤ v.modal_price) ∧
    (∀ (h : Bool) msambRows coRows,
        (∀ row ∈ msambRows, row.length = 7 → ∀ i ∈ ([3, 4, 5, 6] : List Nat),
          ∀ ch ∈ (row.getD i emptyCell).text.data, ch ≠ '-') →
        ∀ k v,
          dictGet (cropRun h msambRows coRows).cs.local_ k = some v ∨
            dictGet (cropRun h msambRows coRows).cs.outstate k = some v →
          NonnegShape v) := by
  constructor
  · intro h msambRows coRows k v hv
    rcases hv with hloc | hout
    · exact le_of_lt ((cropRun_modal_pos h msambRows coRows).1 k v hloc)
    · exact le_of_lt ((cropRun_modal_pos h msambRows coRows).2 k v hout)
  · intro h msambRows coRows H k v hv
    have hmaster := coRows_master h coRows (cropCoInit h msambRows)
      (cropCoInit_outInv h msambRows) (cropCoInit_missInv h msambRows)
    rcases hv with hloc | hout
    · rcases hmaster.2.2.2.2.2.2.1 k v hloc with hinit | hsh
      · cases h with
        | false => simp [cropCoInit, dictGet] at hinit
        | true =>
            rw [cropCoInit_cs] at hinit
            exact msambRows_nonneg msambRows ("N/A", ⟨[], []⟩) H
              (by intro k2 v2 h0; simp [dictGet] at h0) k v hinit
      · exact coShape_nonneg hsh
    · rcases hmaster.2.2.2.2.2.1 k v hout with hinit | hsh
      · cases h with
        | false => simp [cropCoInit, dictGet] at hinit
        | true =>
            have hempty : (cropCoInit true msambRows).cs.outstate = [] := by
              rw [cropCoInit_cs, msambProcess_outstate]
            rw [hempty] at hinit
            simp [dictGet] at hinit
      · exact coShape_nonneg hsh

/-- Witness for the amended C9: the onion scenario record has all numeric
fields nonnegative. -/
theorem C9_witness :
    0 ≤ (⟨1800, some 1500, some 2000, some 120, "Red",
        some "Trade Date: 01-01-2024"⟩ : PriceRecord).modal_price ∧
    NonnegShape (⟨1800, some 1500, some 2000, some 120, "Red",
        some "Trade Date: 01-01-2024"⟩ : PriceRecord) :=
  ⟨C9_amended.1 true [markerRow, puneDataRow] [] "पुणे" _ (Or.inl (by rfl)),
    C9_amended.2 true [markerRow, puneDataRow] [] (by decide) "पुणे" _
      (Or.inl (by rfl))⟩

/-- Claim C10: every stored record (either map, either source) has a
strictly positive modal price; a Secondary row whose extracted price is
nonpositive leaves the whole state unchanged (including the dedup set),
so a later positive row for the same market is still stored — checked on
the Indore scenario. -/
theorem C10_positive_modal :
    (∀ (h : Bool) msambRows coRows k v,
        dictGet (cropRun h msambRows coRows).cs.local_ k = some v →
        0 < v.modal_price) ∧
    (∀ (h : Bool) msambRows coRows k v,
        dictGet (cropRun h msambRows coRows).cs.outstate k = some v →
        0 < v.modal_price) ∧
    (∀ (h : Bool) (st : CoState) (row : List String) price, ¬ row.length < 9 →
        extract_co_price (strStrip (row.getD 8 "")) = Except.ok price →
        price ≤ 0 → coStep h st row = some st) ∧
    dictGet (cropRun false [] [indoreZeroRow, indoreRow]).cs.outstate "Indore" =
      some (coRecord 1950 "Red") := by
  refine ⟨?_, ?_, ?_, rfl⟩
  · intro h msambRows coRows k v hv
    exact (cropRun_modal_pos h msambRows coRows).1 k v hv
  · intro h msambRows coRows k v hv
    exact (cropRun_modal_pos h msambRows coRows).2 k v hv
  · intro h st row price hl he hp
    exact coStep_skip_nonpos hl he hp

/-- Witness for C10: the Indore record stored after a zero-price row for
the same market has a positive modal price. -/
theorem C10_witness : 0 < (coRecord 1950 "Red").modal_price :=
  C10_positive_modal.2.1 false [] [indoreZeroRow, indoreRow] "Indore"
    (coRecord 1950 "Red") (by rfl)

end Scraper
